import Mathlib

/-!
Shallow embedding of the scaphandre repository fragment:
`src/sensors/nvml.rs` (NVML GPU sensor), `src/exporters/warpten.rs`
(Warp10 exporter tick body), and spec-modelled core components
(BoundedHistory, ProcessTracker, AttributionEngine, Topology accessors)
whose implementation is not part of the shipped sources.

Rust `u64` values are embedded as `Nat` together with explicit range
hypotheses (`≤ u64MAX`); the checked-arithmetic view uses `Int` so that
absence of underflow/overflow is a provable statement rather than an
artifact of truncated subtraction.
-/

namespace Scaph

/-- Rust `u64::MAX` = 2^64 - 1. -/
def u64MAX : Nat := 2 ^ 64 - 1

/-! ## NVML sensor (`src/sensors/nvml.rs`) -/

/-- Opaque NVML error (the embedding only tracks that an error occurred). -/
inductive NvmlError where
  | err
deriving DecidableEq

deriving instance DecidableEq for Except

/-- One NVML device, embedded as the oracle of the three fallible reads the
sensor performs on it during one fetch: `device.index()`,
`device.power_usage()`, `device.total_energy_consumption()`. -/
structure NvmlDevice where
  idx : Except NvmlError Nat
  power_usage : Except NvmlError Nat
  total_energy_consumption : Except NvmlError Nat
deriving DecidableEq

/-- State of `NvmlTopology`: the discovered devices and the previously read raw
counters (`previous_measurement`), one per device. -/
structure NvmlTopology where
  devices : List NvmlDevice
  previous_measurement : List Nat
deriving DecidableEq

/-- Structure `NvmlMeasurement` from nvml.rs. -/
structure NvmlMeasurement where
  device_index : Nat
  consumption_millij : Nat
  instantaneous_power : Nat
deriving DecidableEq

/-- The arithmetic core of `compute_energy_diff` (nvml.rs lines 59-63):
`if previous > current then u64::MAX - previous + current else current - previous`. -/
def compute_energy_diff (previous_consumption energy_consumption : Nat) : Nat :=
  if previous_consumption > energy_consumption then
    u64MAX - previous_consumption + energy_consumption
  else
    energy_consumption - previous_consumption

/-- The same expression over `Int`, where `-` is genuine subtraction: used to
show that the `u64` computation neither underflows nor overflows. -/
def compute_energy_diff_int (previous_consumption energy_consumption : Int) : Int :=
  if previous_consumption > energy_consumption then
    u64MAX - previous_consumption + energy_consumption
  else
    energy_consumption - previous_consumption

/-- Method `NvmlTopology::compute_energy_diff`: reads the device's total
energy counter (fallible), looks up the previous measurement at `index`, and
returns `(diff, raw_counter)`. -/
def NvmlTopology.compute_energy_diff (self : NvmlTopology) (index : Nat)
    (device : NvmlDevice) : Except NvmlError (Nat × Nat) := do
  let energy_consumption ← device.total_energy_consumption
  let previous_consumption := self.previous_measurement.getD index 0
  let res := Scaph.compute_energy_diff previous_consumption energy_consumption
  .ok (res, energy_consumption)

/-- The device loop of `fetch_latest_measurement`: iterates the devices in
order (with their enumeration index), building the measurement list and the
list of new previous counters; the first failing read aborts the loop. -/
def fetchLoop (self : NvmlTopology) :
    Nat → List NvmlDevice → Except NvmlError (List NvmlMeasurement × List Nat)
  | _, [] => .ok ([], [])
  | index, device :: rest => do
    let (energy_diff, energy_total) ← self.compute_energy_diff index device
    let di ← device.idx
    let pw ← device.power_usage
    let point : NvmlMeasurement :=
      { device_index := di, consumption_millij := energy_diff, instantaneous_power := pw }
    let (ms, ps) ← fetchLoop self (index + 1) rest
    .ok (point :: ms, energy_total :: ps)

/-- Method `NvmlTopology::fetch_latest_measurement`: on success the measurements are
returned and `previous_measurement` is replaced by the raw counters just
read; a failing read returns the error with the state untouched (the Rust
`?` returns before the final assignment). The pair is (result, state after
the call). -/
def NvmlTopology.fetch_latest_measurement (self : NvmlTopology) :
    Except NvmlError (List NvmlMeasurement) × NvmlTopology :=
  match fetchLoop self 0 self.devices with
  | .error e => (.error e, self)
  | .ok (ms, newPrev) => (.ok ms, { self with previous_measurement := newPrev })

/-- The NVML handle, embedded as the oracle of the discovery calls made by
`NvmlTopology::new`: `device_count()` and `device_by_index(i)`. -/
structure Nvml where
  device_count : Except NvmlError Nat
  device_by_index : Nat → Except NvmlError NvmlDevice

/-- The discovery loop of `NvmlTopology::new`: `for i in 0..gpu_count`,
pushing `device_by_index(i)?`. -/
def collectDevices (nvml : Nvml) : Nat → Except NvmlError (List NvmlDevice)
  | 0 => .ok []
  | n + 1 => do
    let ds ← collectDevices nvml n
    let d ← nvml.device_by_index n
    .ok (ds ++ [d])

/-- Constructor `NvmlTopology::new`: queries the device count, collects the devices, and
initialises `previous_measurement` to `vec![0; gpu_count]`. -/
def NvmlTopology.new (nvml : Nvml) : Except NvmlError NvmlTopology := do
  let gpu_count ← nvml.device_count
  let devices ← collectDevices nvml gpu_count
  .ok { devices := devices, previous_measurement := List.replicate gpu_count 0 }

/-! ## Spec-modelled core components

The measurement core (Topology accessors, BoundedHistory, ProcessTracker,
AttributionEngine) is declared and called by the shipped sources but its
implementation is not among them; the definitions below are modelled from
the spec's words (spec.md sections 3, 4.1-4.4). -/

/-- Structure `RawSample` from the spec data model: one reading of a monotonic
hardware counter. -/
structure RawSample where
  timestamp : Nat
  energy_microjoules : Nat
deriving DecidableEq

/-- Structure `PowerRecord` from the spec data model: a derived power value. -/
structure PowerRecord where
  timestamp : Nat
  power_microwatts : Nat
deriving DecidableEq

/-- Modelled from the spec: the per-entity record state of `Topology`
(section 4.2), holding the raw-counter snapshots and the derived power
records for one entity; the implementation of `Topology` is not in the
shipped sources. -/
structure TopologyEntity where
  raw : List RawSample
  power_records : List PowerRecord

/-- Modelled from the spec: `get_records_diff_power_microwatts(entity) ->
Option<PowerRecord>`, "the latest derived power record, or none if fewer
than 2 raw samples exist yet (cold-start condition, not an error)". -/
def TopologyEntity.get_records_diff_power_microwatts (t : TopologyEntity) :
    Option PowerRecord :=
  if t.raw.length < 2 then none else t.power_records.getLast?

/-- Division on `ℚ` with an explicit division-by-zero error, so that "never
raises a division-by-zero error" is a provable statement. -/
def qdivChecked (a b : ℚ) : Option ℚ :=
  if b = 0 then none else some (a / b)

/-- Modelled from the spec: the `AttributionEngine` (section 4.4), not in
the shipped sources. Given the host/socket power `P`, the CPU-usage
percentages `shares` (`c_j`) and a process position `i`, the attributed
power is `P * (c_i / Σ_j c_j)` when `Σ_j c_j > 0`, else `0` for all
processes. CPU percentages are embedded as exact rationals. `none` encodes
a division-by-zero error. -/
def attributed_power (P : ℚ) (shares : List ℚ) (i : Nat) : Option ℚ :=
  let total := shares.sum
  if 0 < total then
    (qdivChecked (shares.getD i 0) total).map (fun r => P * r)
  else
    some 0

/-- Modelled from the spec: `BoundedHistory<T>` (section 4.1), not in the
shipped sources: an ordered sequence bounded by a byte budget, with a size
measure on items. -/
structure BoundedHistory (α : Type) where
  budget : Nat
  size_of : α → Nat
  items : List α

/-- Total byte size of the retained items. -/
def BoundedHistory.totalSize (h : BoundedHistory α) : Nat :=
  (h.items.map h.size_of).sum

/-- Modelled from the spec: the eviction step of `push` — "evicts oldest
entries while over budget", where "a single item larger than the whole
budget is still admitted ... but immediately evicts all others": oldest
items are dropped from the front while the total exceeds the budget, but
the newest item is never dropped. -/
def evictOldest (size_of : α → Nat) (budget : Nat) : List α → List α
  | [] => []
  | x :: xs =>
    if budget < ((x :: xs).map size_of).sum ∧ xs.isEmpty = false then
      evictOldest size_of budget xs
    else
      x :: xs

/-- Modelled from the spec: `BoundedHistory.push` — "appends, evicts oldest
entries while over budget. Never blocks, never fails." -/
def BoundedHistory.push (h : BoundedHistory α) (item : α) : BoundedHistory α :=
  { h with items := evictOldest h.size_of h.budget (h.items ++ [item]) }

/-- An empty history with the given budget and size measure. -/
def BoundedHistory.empty (size_of : α → Nat) (budget : Nat) : BoundedHistory α :=
  { budget := budget, size_of := size_of, items := [] }

/-- Push a whole sequence of items in order. -/
def BoundedHistory.pushAll (h : BoundedHistory α) (l : List α) : BoundedHistory α :=
  l.foldl BoundedHistory.push h

/-! ## Warp10 exporter (`src/exporters/warpten.rs`)

`Warp10Exporter::iterate` is embedded as a pure function of an environment
that records the results of every external call the tick body makes
(topology accessors observed after `refresh()`, procfs reads, the Warp10
`post_sync` calls). The function returns the trace of topology accessor
calls, the two data batches in push order, and the post responses; Rust
panics (`unwrap`) and the `?` on `post_sync` become `Except` errors. -/

/-- Value of one decimal digit character. -/
def digitVal (c : Char) : Option Nat :=
  if c.isDigit then some (c.toNat - '0'.toNat) else none

/-- Accumulate decimal digits; any non-digit character fails. -/
def parseDigitsAux : List Char → Nat → Option Nat
  | [], acc => some acc
  | c :: cs, acc =>
    match digitVal c with
    | some d => parseDigitsAux cs (acc * 10 + d)
    | none => none

/-- At least one digit, all characters digits. -/
def parseDigits : List Char → Option Nat
  | [] => none
  | cs => parseDigitsAux cs 0

/-- Rust's `str::parse` for signed integers with the given bounds: an
optional sign, then one or more ASCII digits, with the value required to
fit in `[lo, hi]`. -/
def parse_int_in (lo hi : Int) (s : String) : Option Int :=
  let check : Int → Option Int := fun v =>
    if lo ≤ v ∧ v ≤ hi then some v else none
  match s.data with
  | '+' :: rest => (parseDigits rest).bind (fun n => check n)
  | '-' :: rest => (parseDigits rest).bind (fun n => check (-(n : Int)))
  | cs => (parseDigits cs).bind (fun n => check n)

/-- Rust `str::parse::<i64>`. -/
def parse_i64 (s : String) : Option Int :=
  parse_int_in (-(2 ^ 63)) (2 ^ 63 - 1) s

/-- Rust `str::parse::<i32>`. -/
def parse_i32 (s : String) : Option Int :=
  parse_int_in (-(2 ^ 31)) (2 ^ 31 - 1) s

/-- Rust's `as i32` wrapping cast from an unsigned value. -/
def toI32 (n : Nat) : Int :=
  let m : Nat := n % 2 ^ 32
  if m < 2 ^ 31 then (m : Int) else (m : Int) - 2 ^ 32

/-- A `warp10::Value` as built by the exporter. `f64` payloads are kept as
their source string (the embedding does not model float arithmetic). -/
inductive WValue where
  | double (raw : String)
  | int (v : Int)
  | long (v : Int)
deriving DecidableEq

/-- One `warp10::Data` point: class name, labels, value. -/
structure WPoint where
  name : String
  labels : List (String × String)
  value : WValue
deriving DecidableEq

/-- A call to one of the topology's core read accessors, as performed by
the tick body. -/
inductive AccessorCall where
  | get_records_passive
  | get_process_cpu_usage_percentage (pid : Nat)
  | socket_get_records_passive (socket_id : Nat)
  | socket_get_records_diff_power_microwatts (socket_id : Nat)
  | get_records_diff_power_microwatts
  | get_process_power_consumption_microwatts (pid : Nat)
deriving DecidableEq

/-- Failure of the tick body: a Rust panic (`unwrap` on a missing or
unparseable value) or an error propagated from `post_sync` by `?`. -/
inductive ExpError where
  | panic
  | postError
deriving DecidableEq

/-- Unwrap an `Option` the way Rust's `unwrap()` does: absence panics. -/
def unwrapO : Option α → Except ExpError α
  | some a => .ok a
  | none => .error .panic

/-- Propagate a `post_sync` result through `?`. -/
def unwrapPost : Except Unit α → Except ExpError α
  | .ok a => .ok a
  | .error _ => .error .postError

/-- Result of `procfs::process::Process::statm()`. -/
structure Statm where
  size : Nat
  resident : Nat
  shared : Nat

/-- Per-socket data observed through the topology during one tick. -/
structure SocketEnv where
  id : Nat
  stat_buffer_len : Nat
  record_buffer_len : Nat
  records : List String
  diff_power : Option String
  domains : List (String × Nat)

/-- One alive PID as seen through the process tracker during one tick:
name, cmdline, and the power accessor's answer. -/
structure ProcEnv where
  pid : Nat
  exe : String
  cmdline : Option String
  power : Option String

/-- Environment of one execution of `Warp10Exporter::iterate`: every
external value the tick body consumes. Topology fields are the state
observed through the read accessors after `refresh()`. -/
structure ExporterEnv where
  scaphandre_version : String
  version_f64_ok : Bool
  iprocess_myself : Option Nat
  self_cpu : Nat → Option String
  procfs_myself : Option (Except Unit Statm)
  page_size : Option Nat
  stat_buffer_len : Nat
  record_buffer_len : Nat
  procs_len : Nat
  sockets : List SocketEnv
  host_records : List String
  host_diff_power : Option String
  qemu : Bool
  filter_qemu_cmdline : String → Option String
  alive : List ProcEnv
  post1 : Except Unit Nat
  post2 : Except Unit Nat

/-- Result of a successful tick: the accessor-call trace, the first data
batch, the per-process data batch, and the two post responses. -/
structure IterResult where
  trace : List AccessorCall
  data : List WPoint
  process_data : List WPoint
  responses : List Nat

/-- The `scaph_self_cpu_usage_percent` block (warpten.rs lines 122-132; the
same block appears verbatim a second time at lines 134-144): queries the
self-process CPU percentage and pushes one point when it is available. -/
def selfCpuBlock (env : ExporterEnv) :
    Except ExpError (List AccessorCall × List WPoint) := do
  let pid ← unwrapO env.iprocess_myself
  match env.self_cpu pid with
  | some mv => do
    let v ← unwrapO (parse_i32 mv)
    .ok ([.get_process_cpu_usage_percentage pid],
      [⟨"scaph_self_cpu_usage_percent", [], .int v⟩])
  | none => .ok ([.get_process_cpu_usage_percentage pid], [])

/-- The self-memory block (lines 146-171): statm sizes scaled by the page
size, pushed as wrapping-cast `i32` values when statm succeeds. -/
def memBlock (env : ExporterEnv) : Except ExpError (List WPoint) := do
  let statmRes ← unwrapO env.procfs_myself
  match statmRes with
  | .ok m => do
    let ps1 ← unwrapO env.page_size
    let ps2 ← unwrapO env.page_size
    let ps3 ← unwrapO env.page_size
    .ok [⟨"scaph_self_mem_total_program_size", [], .int (toI32 (m.size * ps1))⟩,
      ⟨"scaph_self_mem_resident_set_size", [], .int (toI32 (m.resident * ps2))⟩,
      ⟨"scaph_self_mem_shared_resident_size", [], .int (toI32 (m.shared * ps3))⟩]
  | .error _ => .ok []

/-- The three buffer-length gauges (lines 173-198). -/
def countersBlock (env : ExporterEnv) : List WPoint :=
  [⟨"scaph_self_topo_stats_nb", [], .int (toI32 env.stat_buffer_len)⟩,
    ⟨"scaph_self_topo_records_nb", [], .int (toI32 env.record_buffer_len)⟩,
    ⟨"scaph_self_topo_procs_nb", [], .int (toI32 env.procs_len)⟩]

/-- One socket's section of the tick body (lines 200-256). -/
def socketBlock (s : SocketEnv) :
    Except ExpError (List AccessorCall × List WPoint) := do
  let metric_labels := [("socket_id", toString s.id)]
  let base : List WPoint :=
    [⟨"scaph_self_socket_stats_nb", metric_labels, .int (toI32 s.stat_buffer_len)⟩,
      ⟨"scaph_self_socket_records_nb", metric_labels, .int (toI32 s.record_buffer_len)⟩]
  let domainPoints : List WPoint := s.domains.map (fun d =>
    ⟨"scaph_self_domain_records_nb", [("rapl_domain_name", d.1)],
      .int (toI32 d.2)⟩)
  match s.records.getLast? with
  | none =>
    .ok ([.socket_get_records_passive s.id], base ++ domainPoints)
  | some socket_energy_microjoules => do
    let energyPoints : List WPoint :=
      match parse_i64 socket_energy_microjoules with
      | some v => [⟨"scaph_socket_energy_microjoules", metric_labels, .long v⟩]
      | none => []
    let powerPoints ←
      match s.diff_power with
      | some mv => do
        let v ← unwrapO (parse_i64 mv)
        pure [(⟨"scaph_socket_power_microwatts", metric_labels, .long v⟩ : WPoint)]
      | none => pure ([] : List WPoint)
    .ok ([.socket_get_records_passive s.id,
      .socket_get_records_diff_power_microwatts s.id],
      base ++ energyPoints ++ powerPoints ++ domainPoints)

/-- The host section of the tick body (lines 258-279): skipped entirely
when the host record buffer is empty; otherwise pushes the latest energy
value and, when the diff-power accessor answers, the host power. -/
def hostBlock (env : ExporterEnv) :
    Except ExpError (List AccessorCall × List WPoint) :=
  match env.host_records.getLast? with
  | none => .ok ([], [])
  | some recordValue => do
    let v ← unwrapO (parse_i64 recordValue)
    let energyPoint : WPoint := ⟨"scaph_host_energy_microjoules", [], .long v⟩
    match env.host_diff_power with
    | some mv => do
      let pv ← unwrapO (parse_i64 mv)
      .ok ([.get_records_diff_power_microwatts],
        [energyPoint, ⟨"scaph_host_power_microwatts", [], .long pv⟩])
    | none => .ok ([.get_records_diff_power_microwatts], [energyPoint])

/-- One alive process's section of the per-process batch (lines 294-325). -/
def processBlock (env : ExporterEnv) (p : ProcEnv) :
    Except ExpError (List AccessorCall × List WPoint) := do
  let plabels := [("pid", toString p.pid), ("exe", p.exe)]
  let plabels := plabels ++
    (match p.cmdline with
     | some cmdline_str =>
       (if env.qemu then
         match env.filter_qemu_cmdline cmdline_str with
         | some vmname => [("vmname", vmname)]
         | none => []
       else []) ++
       [("cmdline", cmdline_str.replace "\"" "\\\"")]
     | none => [])
  let metric_name :=
    "scaph_process_power_consumption_microwats" ++ "_" ++ toString p.pid
      ++ "_" ++ p.exe
  match p.power with
  | some power => do
    let v ← unwrapO (parse_i64 power)
    .ok ([.get_process_power_consumption_microwatts p.pid],
      [⟨metric_name, plabels, .long v⟩])
  | none => .ok ([.get_process_power_consumption_microwatts p.pid], [])

/-- Run a per-element section over a list, concatenating traces and points
in order; the first failure aborts, as the Rust loop would panic. -/
def collectBlocks (f : β → Except ExpError (List AccessorCall × List WPoint)) :
    List β → Except ExpError (List AccessorCall × List WPoint)
  | [] => .ok ([], [])
  | x :: xs => do
    let (t1, d1) ← f x
    let (t2, d2) ← collectBlocks f xs
    .ok (t1 ++ t2, d1 ++ d2)

/-- Function `Warp10Exporter::iterate` (warpten.rs lines 98-347): builds the main
data batch (version, two copies of the self-CPU block, memory, gauges,
sockets, host), posts it, builds the per-process batch, posts it, and
returns both responses. -/
def iterate (env : ExporterEnv) : Except ExpError IterResult := do
  let versionValue ←
    if env.version_f64_ok then pure env.scaphandre_version
    else .error ExpError.panic
  let versionPoint : WPoint := ⟨"scaph_self_version", [], .double versionValue⟩
  let (tc1, dc1) ← selfCpuBlock env
  let (tc2, dc2) ← selfCpuBlock env
  let dmem ← memBlock env
  let (ts, ds) ← collectBlocks socketBlock env.sockets
  let (th, dh) ← hostBlock env
  let data := [versionPoint] ++ dc1 ++ dc2 ++ dmem ++ countersBlock env
    ++ ds ++ dh
  let res ← unwrapPost env.post1
  let (tp, dp) ← collectBlocks (processBlock env) env.alive
  let process_data := [versionPoint] ++ dp
  let process_res ← unwrapPost env.post2
  .ok { trace := [AccessorCall.get_records_passive] ++ tc1 ++ tc2 ++ ts ++ th ++ tp,
        data := data, process_data := process_data,
        responses := [res, process_res] }

/-- The data batch of a tick outcome (empty on failure). -/
def dataOf : Except ExpError IterResult → List WPoint
  | .ok r => r.data
  | .error _ => []

/-- The accessor-call trace of a tick outcome (empty on failure). -/
def traceOf : Except ExpError IterResult → List AccessorCall
  | .ok r => r.trace
  | .error _ => []

/-- One live process as reported by the process-enumeration capability
consumed by the tracker (spec section 6). -/
structure LiveProc where
  pid : Nat
  name : String
  cmdline : Option String
  cumulative_cpu_time : Nat
deriving DecidableEq

/-- Modelled from the spec: `ProcessRecord` (section 3) — pid, name and
cmdline captured once, a history of `(timestamp, cumulative_cpu_time)`
samples, plus the count of consecutive refresh ticks on which the PID was
absent from the live enumeration (needed for the two-tick deletion policy). -/
structure ProcessRecord where
  pid : Nat
  name : String
  cmdline : Option String
  cpu_ticks_history : List (Nat × Nat)
  absent_ticks : Nat
deriving DecidableEq

/-- Modelled from the spec: `ProcessTracker` (section 4.3), exclusively
owning the `ProcessRecord`s. -/
structure ProcessTracker where
  procs : List ProcessRecord
deriving DecidableEq

/-- One record's update on a refresh tick: if its PID is in the live
enumeration, a `(timestamp, cumulative_cpu_time)` sample is appended and
the absence count resets; otherwise the absence count increases. -/
def updateRecord (now : Nat) (live : List LiveProc) (r : ProcessRecord) :
    ProcessRecord :=
  match live.find? (fun p => p.pid == r.pid) with
  | some p =>
    { r with cpu_ticks_history := r.cpu_ticks_history ++ [(now, p.cumulative_cpu_time)],
             absent_ticks := 0 }
  | none => { r with absent_ticks := r.absent_ticks + 1 }

/-- Modelled from the spec: `ProcessTracker.refresh_and_evict()` (section
4.3) — enumerates the live PIDs; unseen PIDs get a fresh `ProcessRecord`
(name and cmdline captured once); tracked PIDs get one sample pushed;
records absent from the enumeration for two consecutive ticks are deleted
entirely. -/
def ProcessTracker.refresh_and_evict (t : ProcessTracker) (now : Nat)
    (live : List LiveProc) : ProcessTracker :=
  let updated := t.procs.map (updateRecord now live)
  let kept := updated.filter (fun r => r.absent_ticks < 2)
  let fresh := live.filter (fun p => ¬ t.procs.any (fun r => r.pid == p.pid))
  let created := fresh.map (fun p =>
    { pid := p.pid, name := p.name, cmdline := p.cmdline,
      cpu_ticks_history := [(now, p.cumulative_cpu_time)],
      absent_ticks := 0 : ProcessRecord })
  { procs := kept ++ created }

/-! ## Concrete inputs used by witnesses and evaluations -/

/-- A placeholder device used only as the `getD` default. -/
def devDefault : NvmlDevice := ⟨.error .err, .error .err, .error .err⟩

/-- A placeholder measurement used only as the `getD` default. -/
def mDefault : NvmlMeasurement := ⟨0, 0, 0⟩

/-- A one-device NVML topology whose reads all succeed. -/
def nvmlTopoExample : NvmlTopology :=
  { devices := [⟨.ok 0, .ok 5, .ok 1000⟩], previous_measurement := [0] }

/-- An NVML handle discovering exactly the device of `nvmlTopoExample`. -/
def nvmlExample : Nvml :=
  { device_count := .ok 1,
    device_by_index := fun _ => .ok ⟨.ok 0, .ok 5, .ok 1000⟩ }

/-- A concrete exporter environment: every external read succeeds, the
self-CPU accessor answers `42 %`, and the host record buffer is still empty
(cold start). -/
def exampleEnv : ExporterEnv :=
  { scaphandre_version := "1.0", version_f64_ok := true,
    iprocess_myself := some 7,
    self_cpu := fun _ => some "42",
    procfs_myself := some (.error ()),
    page_size := some 4096,
    stat_buffer_len := 0, record_buffer_len := 0, procs_len := 0,
    sockets := [], host_records := [], host_diff_power := none,
    qemu := false, filter_qemu_cmdline := fun _ => none,
    alive := [], post1 := .ok 0, post2 := .ok 0 }

/-- The spec's tracker scenario: enumeration `{1, 2}` on the first tick. -/
def scenLive : List LiveProc := [⟨1, "a", none, 10⟩, ⟨2, "b", none, 20⟩]

/-- Tracker after the first tick (`{1, 2}`). -/
def scenTick1 : ProcessTracker := (ProcessTracker.mk []).refresh_and_evict 0 scenLive

/-- Tracker after the second tick (first empty enumeration). -/
def scenTick2 : ProcessTracker := scenTick1.refresh_and_evict 1 []

/-- Tracker after the third tick (second empty enumeration). -/
def scenTick3 : ProcessTracker := scenTick2.refresh_and_evict 2 []

/-- The metric class names the main data batch can carry besides the two
host metrics. -/
def nonHostNames : List String :=
  ["scaph_self_version", "scaph_self_cpu_usage_percent",
    "scaph_self_mem_total_program_size", "scaph_self_mem_resident_set_size",
    "scaph_self_mem_shared_resident_size", "scaph_self_topo_stats_nb",
    "scaph_self_topo_records_nb", "scaph_self_topo_procs_nb",
    "scaph_self_socket_stats_nb", "scaph_self_socket_records_nb",
    "scaph_socket_energy_microjoules", "scaph_socket_power_microwatts",
    "scaph_self_domain_records_nb"]

/-! ## Theorems -/

/-- Claim C1: the wraparound-safe energy delta of two consecutive raw counter
readings `prev`, `cur` (both `u64` values) satisfies: if `prev ≤ cur` then
`diff(prev, cur) = cur - prev`, and if `prev > cur` (counter wrapped) then
`diff(prev, cur) = (u64::MAX - prev) + cur`. -/
theorem compute_energy_diff_spec (prev cur : Nat)
    (hp : prev ≤ u64MAX) (hc : cur ≤ u64MAX) :
    (prev ≤ cur → compute_energy_diff prev cur = cur - prev) ∧
    (prev > cur → compute_energy_diff prev cur = (u64MAX - prev) + cur) := by
  constructor
  · intro h
    unfold compute_energy_diff
    rw [if_neg (by omega)]
  · intro h
    unfold compute_energy_diff
    rw [if_pos h]

/-- Witness for `C1`: both branches evaluated at concrete `u64` pairs. -/
theorem compute_energy_diff_spec_witness :
    compute_energy_diff 3 7 = 7 - 3 ∧ compute_energy_diff 7 3 = (u64MAX - 7) + 3 := by
  constructor
  · exact (compute_energy_diff_spec 3 7 (by norm_num [u64MAX]) (by norm_num [u64MAX])).1
      (by norm_num)
  · exact (compute_energy_diff_spec 7 3 (by norm_num [u64MAX]) (by norm_num [u64MAX])).2
      (by norm_num)

/-- Claim C2: at the wraparound input `prev = u64::MAX - 100`, `cur = 50` the
code computes an energy diff of `150`, not the `151` the claim expects (the
wrap branch `u64::MAX - prev + cur` loses the `MAX → 0` wrap step: the
modulo-2^64 distance from `prev` to `cur` is `151`). -/
theorem compute_energy_diff_wrap_off_by_one :
    compute_energy_diff (u64MAX - 100) 50 = 150 ∧
    compute_energy_diff (u64MAX - 100) 50 ≠ 151 ∧
    (50 + 2 ^ 64 - (u64MAX - 100) = 151) := by
  refine ⟨?_, ?_, ?_⟩ <;> norm_num [compute_energy_diff, u64MAX]

/-- Claim C3: the diff computation is total on `u64` pairs: the non-wrap branch
never underflows, the wrap branch never underflows nor overflows, the
result is a valid non-negative `u64`, and the exact-integer computation
agrees with the `u64` one. -/
theorem compute_energy_diff_total (prev cur : Nat)
    (hp : prev ≤ u64MAX) (hc : cur ≤ u64MAX) :
    (prev ≤ cur → (0 : Int) ≤ (cur : Int) - (prev : Int)) ∧
    (cur < prev → (0 : Int) ≤ (u64MAX : Int) - (prev : Int) ∧
      (0 : Int) ≤ (u64MAX : Int) - (prev : Int) + (cur : Int) ∧
      (u64MAX : Int) - (prev : Int) + (cur : Int) ≤ (u64MAX : Int)) ∧
    0 ≤ compute_energy_diff_int prev cur ∧
    compute_energy_diff_int prev cur ≤ (u64MAX : Int) ∧
    compute_energy_diff_int prev cur = (compute_energy_diff prev cur : Int) := by
  have hm : u64MAX = 18446744073709551615 := by norm_num [u64MAX]
  unfold compute_energy_diff_int compute_energy_diff
  by_cases h : cur < prev
  · rw [if_pos (by exact_mod_cast h), if_pos h]
    simp only [hm] at *
    refine ⟨by omega, fun _ => ⟨by omega, by omega, by omega⟩, by omega, by omega, by omega⟩
  · rw [if_neg (by exact_mod_cast h), if_neg h]
    simp only [hm] at *
    refine ⟨by omega, fun hcp => absurd hcp h, by omega, by omega, by omega⟩

/-- Witness for `C3`: totality at the concrete wrap pair `(7, 3)`. -/
theorem compute_energy_diff_total_witness :
    (0 : Int) ≤ compute_energy_diff_int 7 3 ∧
    compute_energy_diff_int 7 3 = (compute_energy_diff 7 3 : Int) := by
  have h := compute_energy_diff_total 7 3 (by norm_num [u64MAX]) (by norm_num [u64MAX])
  exact ⟨h.2.2.1, h.2.2.2.2⟩

/-- Claim C6: when the sum of all processes' CPU-usage percentages is zero the
attribution engine assigns power `0` to every process without performing a
division (so no division-by-zero error is possible), and when the sum is
positive process `i` receives `P * (c_i / Σ_j c_j)`. -/
theorem attributed_power_idle_total (P : ℚ) (shares : List ℚ) (i : Nat) :
    (shares.sum = 0 → attributed_power P shares i = some 0) ∧
    (0 < shares.sum →
      attributed_power P shares i = some (P * (shares.getD i 0 / shares.sum))) ∧
    attributed_power P shares i ≠ none := by
  by_cases h : 0 < shares.sum
  · refine ⟨fun h0 => absurd h0 h.ne', fun _ => ?_, ?_⟩ <;>
      simp [attributed_power, qdivChecked, h, ne_of_gt h]
  · refine ⟨fun _ => ?_, fun hc => absurd hc h, ?_⟩ <;>
      simp [attributed_power, qdivChecked, h]

/-- Witness for `C6`: the fully idle case (`Σ c_j = 0`) and the spec's
`P = 100000`, shares `30 %` and `0 %` example. -/
theorem attributed_power_idle_total_witness :
    attributed_power 100000 ([] : List ℚ) 0 = some 0 ∧
    attributed_power 100000 [(30 : ℚ), 0] 0 =
      some (100000 * (([(30 : ℚ), 0].getD 0 0) / ([(30 : ℚ), 0].sum))) := by
  constructor
  · exact (attributed_power_idle_total 100000 [] 0).1 (by simp)
  · exact (attributed_power_idle_total 100000 [(30 : ℚ), 0] 0).2.1 (by norm_num)

/-- A refresh tick never changes a record's PID. -/
theorem updateRecord_pid (now : Nat) (live : List LiveProc) (r : ProcessRecord) :
    (updateRecord now live r).pid = r.pid := by
  unfold updateRecord
  cases live.find? (fun p => p.pid == r.pid) <;> rfl

/-- When a record's PID is absent from the enumeration, the refresh step
only increments its absence count. -/
theorem updateRecord_absent (now : Nat) (live : List LiveProc)
    (r : ProcessRecord) (hlive : ∀ p ∈ live, p.pid ≠ r.pid) :
    updateRecord now live r = { r with absent_ticks := r.absent_ticks + 1 } := by
  have hfind : live.find? (fun p => p.pid == r.pid) = none := by
    apply List.find?_eq_none.mpr
    intro p hp
    simpa using hlive p hp
  unfold updateRecord
  rw [hfind]

/-- Tracked PIDs stay pairwise distinct across a refresh tick (records are
created only for PIDs not already tracked), so the uniqueness hypothesis of
the deletion property holds in every reachable tracker state. -/
theorem refresh_and_evict_pids_nodup (t : ProcessTracker) (now : Nat)
    (live : List LiveProc)
    (ht : (t.procs.map (fun r => r.pid)).Nodup)
    (hl : (live.map (fun p => p.pid)).Nodup) :
    ((t.refresh_and_evict now live).procs.map (fun r => r.pid)).Nodup := by
  unfold ProcessTracker.refresh_and_evict
  rw [List.map_append]
  have hmm : (t.procs.map (updateRecord now live)).map (fun r => r.pid)
      = t.procs.map (fun r => r.pid) := by
    rw [List.map_map]
    exact List.map_congr_left (fun r _ => updateRecord_pid now live r)
  have hkept : List.Sublist (((t.procs.map (updateRecord now live)).filter
      (fun r => r.absent_ticks < 2)).map (fun r => r.pid))
      (t.procs.map (fun r => r.pid)) := by
    rw [← hmm]
    exact (List.filter_sublist _).map _
  have hkeptsub : ∀ a, a ∈ ((t.procs.map (updateRecord now live)).filter
      (fun r => r.absent_ticks < 2)).map (fun r => r.pid) →
      a ∈ t.procs.map (fun r => r.pid) := fun a ha => hkept.subset ha
  apply List.Nodup.append
  · exact hkept.nodup ht
  · rw [List.map_map]
    have hsub : List.Sublist ((live.filter
        (fun p => ¬ t.procs.any (fun r => r.pid == p.pid))).map
        (fun p => p.pid)) (live.map (fun p => p.pid)) :=
      (List.filter_sublist _).map _
    exact hsub.nodup hl
  · intro a ha hb
    have ha' : a ∈ t.procs.map (fun r => r.pid) := hkeptsub a ha
    obtain ⟨q, hq, rfl⟩ := List.mem_map.mp hb
    obtain ⟨p, hpf, rfl⟩ := List.mem_map.mp hq
    have hfr := (List.mem_filter.mp hpf).2
    simp only [decide_eq_true_eq] at hfr
    apply hfr
    rw [List.any_eq_true]
    obtain ⟨r0, hr0, hr0p⟩ := List.mem_map.mp ha'
    exact ⟨r0, hr0, by simpa using hr0p⟩

/-- Claim C8: for every tracked record whose PID is absent from the live
enumeration, a single absent tick keeps the record (with one recorded
absence) and a second consecutive absent tick deletes it: the twice-absent
record is not retained, and (when tracked PIDs are unique, an invariant of
every reachable state by `refresh_and_evict_pids_nodup`) no record with
that PID survives; in the spec's scenario `{1,2}` then `{}` then `{}` the
records survive the first empty tick and are deleted on the second. -/
theorem process_tracker_two_tick_eviction :
    (∀ (t : ProcessTracker) (now : Nat) (live : List LiveProc) (r : ProcessRecord),
      r ∈ t.procs → r.absent_ticks = 0 → (∀ p ∈ live, p.pid ≠ r.pid) →
      updateRecord now live r ∈ (t.refresh_and_evict now live).procs ∧
      (updateRecord now live r).absent_ticks = 1 ∧
      (updateRecord now live r).pid = r.pid) ∧
    (∀ (t : ProcessTracker) (now : Nat) (live : List LiveProc) (r : ProcessRecord),
      r ∈ t.procs → r.absent_ticks = 1 → (∀ p ∈ live, p.pid ≠ r.pid) →
      updateRecord now live r ∉ (t.refresh_and_evict now live).procs ∧
      ((∀ r' ∈ t.procs, r'.pid = r.pid → r' = r) →
        ∀ r' ∈ (t.refresh_and_evict now live).procs, r'.pid ≠ r.pid)) ∧
    scenTick2.procs.map (fun r => r.pid) = [1, 2] ∧
    scenTick3.procs = [] := by
  refine ⟨?_, ?_, by decide, by decide⟩
  · intro t now live r hmem habs hlive
    have hupd := updateRecord_absent now live r hlive
    refine ⟨?_, by rw [hupd, habs], by rw [hupd]⟩
    unfold ProcessTracker.refresh_and_evict
    apply List.mem_append_left
    apply List.mem_filter.mpr
    refine ⟨List.mem_map.mpr ⟨r, hmem, rfl⟩, ?_⟩
    rw [hupd, habs]
    simp
  · intro t now live r hmem habs hlive
    have hupd := updateRecord_absent now live r hlive
    constructor
    · intro hin
      unfold ProcessTracker.refresh_and_evict at hin
      rcases List.mem_append.mp hin with hk | hc
      · have hpred := (List.mem_filter.mp hk).2
        rw [hupd] at hpred
        simp [habs] at hpred
      · obtain ⟨p, -, heq⟩ := List.mem_map.mp hc
        have habs2 := congrArg ProcessRecord.absent_ticks heq
        rw [hupd] at habs2
        simp [habs] at habs2
    · intro huniq r' hr' hpid
      unfold ProcessTracker.refresh_and_evict at hr'
      rcases List.mem_append.mp hr' with hk | hc
      · obtain ⟨hk1, hk2⟩ := List.mem_filter.mp hk
        obtain ⟨r0, hr0, rfl⟩ := List.mem_map.mp hk1
        have hr0r : r0 = r :=
          huniq r0 hr0 (by rw [← updateRecord_pid now live r0, hpid])
        subst hr0r
        rw [hupd] at hk2
        simp [habs] at hk2
      · obtain ⟨p, hp, rfl⟩ := List.mem_map.mp hc
        have hpl : p ∈ live := (List.mem_filter.mp hp).1
        exact hlive p hpl hpid

/-- Witness for `C8`: the grace-period branch after the first empty tick of
the spec scenario, and the deletion branch after the second. -/
theorem process_tracker_two_tick_eviction_witness :
    (updateRecord 1 [] ⟨1, "a", none, [(0, 10)], 0⟩ ∈
      (scenTick1.refresh_and_evict 1 []).procs ∧
    (updateRecord 1 [] ⟨1, "a", none, [(0, 10)], 0⟩).absent_ticks = 1 ∧
    (updateRecord 1 [] ⟨1, "a", none, [(0, 10)], 0⟩).pid = 1) ∧
    updateRecord 2 [] ⟨1, "a", none, [(0, 10)], 1⟩ ∉
      (scenTick2.refresh_and_evict 2 []).procs ∧
    (∀ r' ∈ (scenTick2.refresh_and_evict 2 []).procs, r'.pid ≠ 1) :=
  ⟨process_tracker_two_tick_eviction.1 scenTick1 1 []
      ⟨1, "a", none, [(0, 10)], 0⟩ (by decide) rfl (by decide),
    (process_tracker_two_tick_eviction.2.1 scenTick2 2 []
      ⟨1, "a", none, [(0, 10)], 1⟩ (by decide) rfl (by decide)).1,
    (process_tracker_two_tick_eviction.2.1 scenTick2 2 []
      ⟨1, "a", none, [(0, 10)], 1⟩ (by decide) rfl (by decide)).2 (by decide)⟩

/-- Eviction drops items only from the front: the retained items are a
suffix of the input sequence. -/
theorem evictOldest_suffix (s : α → Nat) (b : Nat) (l : List α) :
    evictOldest s b l <:+ l := by
  induction l with
  | nil => exact List.nil_suffix
  | cons x xs ih =>
    unfold evictOldest
    split
    · exact ih.trans (List.suffix_cons x xs)
    · exact List.suffix_refl _

/-- If the newest (last) item fits in the budget, eviction reaches a total
size within the budget. -/
theorem evictOldest_last_within (s : α → Nat) (b : Nat) :
    ∀ (l : List α) (a : α), l.getLast? = some a → s a ≤ b →
      ((evictOldest s b l).map s).sum ≤ b := by
  intro l
  induction l with
  | nil => intro a ha _; simp at ha
  | cons x xs ih =>
    intro a ha hb
    cases hxs : xs with
    | nil =>
      subst hxs
      have hax : a = x := by simpa using ha.symm
      subst hax
      simpa [evictOldest] using hb
    | cons y ys =>
      subst hxs
      have ha' : (y :: ys).getLast? = some a := by
        rwa [List.getLast?_cons_cons] at ha
      unfold evictOldest
      split
      · exact ih a ha' hb
      · next hcond =>
        simp only [List.isEmpty_cons, and_true, not_lt] at hcond
        exact hcond

/-- If the newest (last) item alone exceeds the budget, eviction retains
exactly that one item. -/
theorem evictOldest_last_oversize (s : α → Nat) (b : Nat) :
    ∀ (l : List α) (a : α), l.getLast? = some a → b < s a →
      evictOldest s b l = [a] := by
  intro l
  induction l with
  | nil => intro a ha _; simp at ha
  | cons x xs ih =>
    intro a ha hb
    cases hxs : xs with
    | nil =>
      subst hxs
      have hax : a = x := by simpa using ha.symm
      subst hax
      simp [evictOldest]
    | cons y ys =>
      subst hxs
      have ha' : (y :: ys).getLast? = some a := by
        rwa [List.getLast?_cons_cons] at ha
      have hmem : a ∈ y :: ys := by
        obtain ⟨hne, hal⟩ := List.mem_getLast?_eq_getLast (by rw [ha']; rfl)
        rw [hal]
        exact List.getLast_mem hne
      have hsum : s a ≤ ((x :: y :: ys).map s).sum :=
        List.le_sum_of_mem (List.mem_map_of_mem s (List.mem_cons_of_mem x hmem))
      unfold evictOldest
      rw [if_pos ⟨by omega, by simp⟩]
      exact ih a ha' hb

/-- A suffix stays a suffix after appending on the right. -/
theorem suffix_append_same {a b : List α} (h : a <:+ b) (c : List α) :
    a ++ c <:+ b ++ c := by
  obtain ⟨p, rfl⟩ := h
  exact ⟨p, (List.append_assoc p a c).symm⟩

/-- Operation `pushAll` never changes the configured budget and size measure. -/
theorem pushAll_config (h : BoundedHistory α) (l : List α) :
    (h.pushAll l).budget = h.budget ∧ (h.pushAll l).size_of = h.size_of := by
  induction l generalizing h with
  | nil => exact ⟨rfl, rfl⟩
  | cons x xs ih => exact ih (h.push x)

/-- The retained items after a sequence of pushes form a suffix of the
initial items followed by the pushed sequence. -/
theorem pushAll_items_suffix (h : BoundedHistory α) (l : List α) :
    (h.pushAll l).items <:+ h.items ++ l := by
  induction l generalizing h with
  | nil => simpa [BoundedHistory.pushAll] using List.suffix_refl h.items
  | cons x xs ih =>
    have h1 := ih (h.push x)
    have h2 : (h.push x).items ++ xs <:+ (h.items ++ [x]) ++ xs :=
      suffix_append_same (evictOldest_suffix _ _ _) xs
    have h3 : (h.items ++ [x]) ++ xs = h.items ++ x :: xs := by simp
    exact h1.trans (h3 ▸ h2)

/-- Claim C7: after any finite sequence of pushes into an initially empty
`BoundedHistory`, the retained items are a suffix of the pushed sequence
(eviction removes oldest first and push never fails), their total size is
within the byte budget whenever the most recently pushed item fits in the
budget, and when the most recent item alone exceeds the budget exactly that
one item is retained. -/
theorem bounded_history_budget_invariant (α : Type) (size_of : α → Nat)
    (budget : Nat) (l : List α) (a : α) (hl : l.getLast? = some a) :
    ((BoundedHistory.empty size_of budget).pushAll l).items <:+ l ∧
    (size_of a ≤ budget →
      ((BoundedHistory.empty size_of budget).pushAll l).totalSize ≤ budget) ∧
    (budget < size_of a →
      ((BoundedHistory.empty size_of budget).pushAll l).items = [a]) := by
  have hne : l ≠ [] := by rintro rfl; simp at hl
  have hsplit : l.dropLast ++ [a] = l := by
    have hg := List.getLast?_eq_getLast_of_ne_nil hne
    rw [hl] at hg
    rw [Option.some.injEq] at hg
    rw [hg]
    exact List.dropLast_append_getLast hne
  set inner := (BoundedHistory.empty size_of budget).pushAll l.dropLast with hinner
  have hfold : (BoundedHistory.empty size_of budget).pushAll l = inner.push a := by
    rw [← hsplit, BoundedHistory.pushAll, List.foldl_concat]
    rfl
  have hcfg := pushAll_config (BoundedHistory.empty size_of budget) l.dropLast
  have hsz : inner.size_of = size_of := hcfg.2
  have hbd : inner.budget = budget := hcfg.1
  have hitems : (inner.push a).items =
      evictOldest size_of budget (inner.items ++ [a]) := by
    unfold BoundedHistory.push
    rw [hsz, hbd]
  have hlast : (inner.items ++ [a]).getLast? = some a := List.getLast?_concat _
  refine ⟨?_, ?_, ?_⟩
  · rw [hfold]
    have h1 : (inner.push a).items <:+ inner.items ++ [a] := by
      rw [hitems]; exact evictOldest_suffix _ _ _
    have h2 : inner.items <:+ l.dropLast := by
      simpa [hinner] using pushAll_items_suffix (BoundedHistory.empty size_of budget) l.dropLast
    have h3 : inner.items ++ [a] <:+ l.dropLast ++ [a] := suffix_append_same h2 [a]
    have h4 : (inner.push a).items <:+ l.dropLast ++ [a] := h1.trans h3
    rw [hsplit] at h4
    exact h4
  · intro hfit
    rw [hfold]
    unfold BoundedHistory.totalSize
    have hszp : (inner.push a).size_of = size_of := by
      unfold BoundedHistory.push
      exact hsz
    rw [hszp, hitems]
    exact evictOldest_last_within size_of budget _ a hlast hfit
  · intro hover
    rw [hfold, hitems]
    exact evictOldest_last_oversize size_of budget _ a hlast hover

/-- Witness for `C7`: pushing `[2, 5, 9]` into an empty history of byte
budget `6` with `size_of = id`; the last item (size 9) exceeds the budget. -/
theorem bounded_history_budget_invariant_witness :
    ((BoundedHistory.empty (fun n => n) 6).pushAll [2, 5, 9]).items <:+ [2, 5, 9] ∧
    ((fun (n : Nat) => n) 9 ≤ 6 →
      ((BoundedHistory.empty (fun n => n) 6).pushAll [2, 5, 9]).totalSize ≤ 6) ∧
    (6 < (fun (n : Nat) => n) 9 →
      ((BoundedHistory.empty (fun n => n) 6).pushAll [2, 5, 9]).items = [9]) :=
  bounded_history_budget_invariant Nat (fun n => n) 6 [2, 5, 9] 9 rfl

/-- Bind on an `Except.ok` value applies the continuation. -/
@[simp] theorem except_bind_ok (a : α) (f : α → Except ε β) :
    (Except.ok a >>= f) = f a := rfl

/-- Bind on an `Except.error` value propagates the error. -/
@[simp] theorem except_bind_error (e : ε) (f : α → Except ε β) :
    ((Except.error e : Except ε α) >>= f) = .error e := rfl

/-- Bind after `pure` applies the continuation. -/
@[simp] theorem except_pure_bind (a : α) (f : α → Except ε β) :
    ((pure a : Except ε α) >>= f) = f a := rfl

/-- Everything a successful run of the device loop guarantees: one
measurement and one new previous counter per device, in device order, each
taken from that device's reads. -/
theorem fetchLoop_ok (self : NvmlTopology) (l : List NvmlDevice) :
    ∀ (k : Nat) (ms : List NvmlMeasurement) (ps : List Nat),
      fetchLoop self k l = .ok (ms, ps) →
      ms.length = l.length ∧ ps.length = l.length ∧
      ∀ i, i < l.length →
        (l.getD i devDefault).total_energy_consumption = .ok (ps.getD i 0) ∧
        (l.getD i devDefault).idx = .ok ((ms.getD i mDefault).device_index) ∧
        (l.getD i devDefault).power_usage =
          .ok ((ms.getD i mDefault).instantaneous_power) ∧
        (ms.getD i mDefault).consumption_millij =
          compute_energy_diff (self.previous_measurement.getD (k + i) 0)
            (ps.getD i 0) := by
  induction l with
  | nil =>
    intro k ms ps h
    simp only [fetchLoop, Except.ok.injEq, Prod.mk.injEq] at h
    obtain ⟨rfl, rfl⟩ := h
    exact ⟨rfl, rfl, fun i hi => absurd hi (by simp)⟩
  | cons d rest ih =>
    intro k ms ps h
    simp only [fetchLoop, NvmlTopology.compute_energy_diff] at h
    cases he : d.total_energy_consumption with
    | error e => rw [he] at h; simp at h
    | ok etotal =>
      rw [he] at h
      simp only [except_bind_ok] at h
      cases hidx : d.idx with
      | error e => rw [hidx] at h; simp at h
      | ok di =>
        rw [hidx] at h
        simp only [except_bind_ok] at h
        cases hpw : d.power_usage with
        | error e => rw [hpw] at h; simp at h
        | ok pw =>
          rw [hpw] at h
          simp only [except_bind_ok] at h
          cases hrec : fetchLoop self (k + 1) rest with
          | error e => rw [hrec] at h; simp at h
          | ok pr =>
            obtain ⟨ms', ps'⟩ := pr
            rw [hrec] at h
            simp only [except_bind_ok, Except.ok.injEq, Prod.mk.injEq] at h
            obtain ⟨rfl, rfl⟩ := h
            obtain ⟨hl1, hl2, hrest⟩ := ih (k + 1) ms' ps' hrec
            refine ⟨by simp [hl1], by simp [hl2], ?_⟩
            intro i hi
            cases i with
            | zero =>
              refine ⟨by simpa using he, by simpa using hidx, by simpa using hpw, ?_⟩
              simp
            | succ j =>
              have hj : j < rest.length := by simpa using hi
              have hr := hrest j hj
              have hk : k + (j + 1) = k + 1 + j := by omega
              simpa [hk] using hr

/-- Claim C9: `fetch_latest_measurement` is atomic with respect to the stored
previous measurements: a failing read returns the error with
`previous_measurement` exactly as before; success yields one measurement
per device in device order, and the new `previous_measurement[i]` is the
raw total-energy counter just read from device `i` (its length staying
equal to the device count). -/
theorem fetch_latest_measurement_atomic (self : NvmlTopology) :
    (∀ e, (self.fetch_latest_measurement).1 = .error e →
      (self.fetch_latest_measurement).2 = self) ∧
    (∀ ms, (self.fetch_latest_measurement).1 = .ok ms →
      ms.length = self.devices.length ∧
      (self.fetch_latest_measurement).2.devices = self.devices ∧
      (self.fetch_latest_measurement).2.previous_measurement.length =
        self.devices.length ∧
      ∀ i, i < self.devices.length →
        (self.devices.getD i devDefault).total_energy_consumption =
          .ok ((self.fetch_latest_measurement).2.previous_measurement.getD i 0) ∧
        (self.devices.getD i devDefault).idx =
          .ok ((ms.getD i mDefault).device_index) ∧
        (self.devices.getD i devDefault).power_usage =
          .ok ((ms.getD i mDefault).instantaneous_power)) := by
  cases hf : fetchLoop self 0 self.devices with
  | error e =>
    constructor
    · intro e' _
      simp [NvmlTopology.fetch_latest_measurement, hf]
    · intro ms hms
      simp [NvmlTopology.fetch_latest_measurement, hf] at hms
  | ok p =>
    obtain ⟨ms', ps⟩ := p
    obtain ⟨hl1, hl2, hrest⟩ := fetchLoop_ok self self.devices 0 ms' ps hf
    constructor
    · intro e' he'
      simp [NvmlTopology.fetch_latest_measurement, hf] at he'
    · intro ms hms
      simp only [NvmlTopology.fetch_latest_measurement, hf, Except.ok.injEq] at hms
      subst hms
      simp only [NvmlTopology.fetch_latest_measurement, hf]
      refine ⟨hl1, by trivial, by simpa using hl2, ?_⟩
      intro i hi
      have hr := hrest i hi
      exact ⟨by simpa using hr.1, hr.2.1, hr.2.2.1⟩

/-- Witness for `C9`: the success branch at a concrete one-device topology
whose reads all succeed. -/
theorem fetch_latest_measurement_atomic_witness :
    [(⟨0, 1000, 5⟩ : NvmlMeasurement)].length = nvmlTopoExample.devices.length ∧
    (nvmlTopoExample.fetch_latest_measurement).2.devices = nvmlTopoExample.devices ∧
    (nvmlTopoExample.fetch_latest_measurement).2.previous_measurement.length =
      nvmlTopoExample.devices.length ∧
    ∀ i, i < nvmlTopoExample.devices.length →
      (nvmlTopoExample.devices.getD i devDefault).total_energy_consumption =
        .ok ((nvmlTopoExample.fetch_latest_measurement).2.previous_measurement.getD i 0) ∧
      (nvmlTopoExample.devices.getD i devDefault).idx =
        .ok (([(⟨0, 1000, 5⟩ : NvmlMeasurement)].getD i mDefault).device_index) ∧
      (nvmlTopoExample.devices.getD i devDefault).power_usage =
        .ok (([(⟨0, 1000, 5⟩ : NvmlMeasurement)].getD i mDefault).instantaneous_power) :=
  (fetch_latest_measurement_atomic nvmlTopoExample).2
    [(⟨0, 1000, 5⟩ : NvmlMeasurement)] (by decide)

/-- A successful discovery loop returns as many devices as it was asked to
enumerate. -/
theorem collectDevices_ok (nvml : Nvml) :
    ∀ (n : Nat) (ds : List NvmlDevice),
      collectDevices nvml n = .ok ds → ds.length = n := by
  intro n
  induction n with
  | zero =>
    intro ds h
    simp only [collectDevices, Except.ok.injEq] at h
    rw [← h]
    rfl
  | succ m ih =>
    intro ds h
    simp only [collectDevices] at h
    cases hc : collectDevices nvml m with
    | error e => rw [hc] at h; simp at h
    | ok prev =>
      rw [hc] at h
      simp only [except_bind_ok] at h
      cases hd : nvml.device_by_index m with
      | error e => rw [hd] at h; simp at h
      | ok d =>
        rw [hd] at h
        simp only [except_bind_ok, Except.ok.injEq] at h
        rw [← h]
        simp [ih prev hc]

/-- Any lookup into an all-zero previous-measurement vector yields zero. -/
theorem getD_replicate_zero (n i : Nat) : (List.replicate n 0).getD i 0 = 0 := by
  induction n generalizing i with
  | zero => cases i <;> rfl
  | succ m ih => cases i with
    | zero => rfl
    | succ j => simpa [List.replicate] using ih j

/-- With a previous counter of zero the wrap branch is unreachable and the
diff is the whole counter. -/
theorem compute_energy_diff_zero_prev (e : Nat) : compute_energy_diff 0 e = e := by
  simp [compute_energy_diff]

/-- Claim C10: `NvmlTopology::new` sets `previous_measurement` to all zeros
(one per discovered device), so on the first successful fetch each device's
reported `consumption_millij` is that device's entire cumulative energy
counter (total since driver reload), not the energy since construction. -/
theorem nvml_new_first_fetch_total_counter (nvml : Nvml) (t : NvmlTopology)
    (h : NvmlTopology.new nvml = .ok t) :
    t.previous_measurement = List.replicate t.devices.length 0 ∧
    ∀ ms, (t.fetch_latest_measurement).1 = .ok ms →
      ∀ i, i < t.devices.length →
        (t.devices.getD i devDefault).total_energy_consumption =
          .ok ((ms.getD i mDefault).consumption_millij) := by
  simp only [NvmlTopology.new] at h
  cases hc : nvml.device_count with
  | error e => rw [hc] at h; simp at h
  | ok n =>
    rw [hc] at h
    simp only [except_bind_ok] at h
    cases hds : collectDevices nvml n with
    | error e => rw [hds] at h; simp at h
    | ok ds =>
      rw [hds] at h
      simp only [except_bind_ok, Except.ok.injEq] at h
      have hlen := collectDevices_ok nvml n ds hds
      subst h
      constructor
      · simp [hlen]
      · intro ms hms i hi
        cases hf : fetchLoop ⟨ds, List.replicate n 0⟩ 0 ds with
        | error e =>
          simp [NvmlTopology.fetch_latest_measurement, hf] at hms
        | ok p =>
          obtain ⟨ms', ps⟩ := p
          simp only [NvmlTopology.fetch_latest_measurement, hf,
            Except.ok.injEq] at hms
          subst hms
          obtain ⟨hl1, hl2, hrest⟩ :=
            fetchLoop_ok ⟨ds, List.replicate n 0⟩ ds 0 ms' ps hf
          have hr := hrest i (by simpa using hi)
          have hcons : (ms'.getD i mDefault).consumption_millij = ps.getD i 0 := by
            rw [hr.2.2.2]
            simp only [Nat.zero_add]
            rw [getD_replicate_zero, compute_energy_diff_zero_prev]
          rw [hcons]
          simpa using hr.1

/-- Witness for `C10`: construction and first fetch on a concrete one-GPU
handle whose counter reads `1000`. -/
theorem nvml_new_first_fetch_total_counter_witness :
    nvmlTopoExample.previous_measurement =
      List.replicate nvmlTopoExample.devices.length 0 :=
  (nvml_new_first_fetch_total_counter nvmlExample nvmlTopoExample (by rfl)).1

/-- Claim C4: contrary to the once-per-tick claim, one tick of
`Warp10Exporter::iterate` (evaluated at a concrete environment where the
accessor answers `42 %`) queries the self-process CPU-usage accessor twice
and pushes two `scaph_self_cpu_usage_percent` data points — the block at
warpten.rs lines 122-132 is duplicated verbatim at lines 134-144. -/
theorem warp10_self_cpu_pushed_twice :
    ((dataOf (iterate exampleEnv)).filter
      (fun p => p.name == "scaph_self_cpu_usage_percent")).length = 2 ∧
    (traceOf (iterate exampleEnv)).count
      (AccessorCall.get_process_cpu_usage_percentage 7) = 2 := by
  constructor <;> rfl

/-- The self-CPU block only ever pushes the self-CPU metric. -/
theorem selfCpuBlock_names (env : ExporterEnv) (tr : List AccessorCall)
    (pts : List WPoint) (h : selfCpuBlock env = .ok (tr, pts)) :
    ∀ p ∈ pts, p.name ∈ nonHostNames := by
  unfold selfCpuBlock at h
  cases hm : env.iprocess_myself with
  | none => rw [hm] at h; simp [unwrapO] at h
  | some pid =>
    rw [hm] at h
    simp only [unwrapO, except_bind_ok] at h
    cases hc : env.self_cpu pid with
    | none =>
      rw [hc] at h
      simp only [Except.ok.injEq, Prod.mk.injEq] at h
      obtain ⟨-, rfl⟩ := h
      simp
    | some mv =>
      rw [hc] at h
      dsimp only at h
      cases hp : parse_i32 mv with
      | none => rw [hp] at h; simp [unwrapO] at h
      | some v =>
        rw [hp] at h
        simp only [unwrapO, except_bind_ok, Except.ok.injEq, Prod.mk.injEq] at h
        obtain ⟨-, rfl⟩ := h
        intro p hp'
        simp only [List.mem_singleton] at hp'
        subst hp'
        simp [nonHostNames]

/-- The self-memory block only ever pushes the three memory metrics. -/
theorem memBlock_names (env : ExporterEnv) (pts : List WPoint)
    (h : memBlock env = .ok pts) : ∀ p ∈ pts, p.name ∈ nonHostNames := by
  unfold memBlock at h
  cases hm : env.procfs_myself with
  | none => rw [hm] at h; simp [unwrapO] at h
  | some statmRes =>
    rw [hm] at h
    simp only [unwrapO, except_bind_ok] at h
    cases statmRes with
    | error e =>
      simp only [Except.ok.injEq] at h
      subst h
      simp
    | ok m =>
      cases hp : env.page_size with
      | none => rw [hp] at h; simp [unwrapO] at h
      | some ps =>
        rw [hp] at h
        dsimp only at h
        simp only [unwrapO, except_bind_ok, Except.ok.injEq] at h
        subst h
        intro p hp'
        simp only [List.mem_cons, List.not_mem_nil, or_false] at hp'
        rcases hp' with rfl | rfl | rfl <;> simp [nonHostNames]

/-- The gauges block only ever pushes the three topology gauges. -/
theorem countersBlock_names (env : ExporterEnv) :
    ∀ p ∈ countersBlock env, p.name ∈ nonHostNames := by
  intro p hp
  simp only [countersBlock, List.mem_cons, List.not_mem_nil, or_false] at hp
  rcases hp with rfl | rfl | rfl <;> simp [nonHostNames]

/-- A socket's section only ever pushes the per-socket metrics. -/
theorem socketBlock_names (s : SocketEnv) (tr : List AccessorCall)
    (pts : List WPoint) (h : socketBlock s = .ok (tr, pts)) :
    ∀ p ∈ pts, p.name ∈ nonHostNames := by
  have hdom : ∀ p ∈ s.domains.map (fun d =>
      (⟨"scaph_self_domain_records_nb", [("rapl_domain_name", d.1)],
        .int (toI32 d.2)⟩ : WPoint)), p.name ∈ nonHostNames := by
    intro p hp
    obtain ⟨d, -, rfl⟩ := List.mem_map.mp hp
    simp [nonHostNames]
  have hbase : ∀ p ∈ ([⟨"scaph_self_socket_stats_nb", [("socket_id", toString s.id)],
      .int (toI32 s.stat_buffer_len)⟩,
      ⟨"scaph_self_socket_records_nb", [("socket_id", toString s.id)],
        .int (toI32 s.record_buffer_len)⟩] : List WPoint), p.name ∈ nonHostNames := by
    intro p hp
    simp only [List.mem_cons, List.not_mem_nil, or_false] at hp
    rcases hp with rfl | rfl <;> simp [nonHostNames]
  have henergy : ∀ (ev : String),
      ∀ p ∈ (match parse_i64 ev with
        | some v => [(⟨"scaph_socket_energy_microjoules",
            [("socket_id", toString s.id)], .long v⟩ : WPoint)]
        | none => ([] : List WPoint)), p.name ∈ nonHostNames := by
    intro ev p hp
    cases hpv : parse_i64 ev with
    | none =>
      rw [hpv] at hp
      exact absurd hp (by simp)
    | some v =>
      rw [hpv] at hp
      simp at hp
      subst hp
      simp [nonHostNames]
  unfold socketBlock at h
  cases hl : s.records.getLast? with
  | none =>
    rw [hl] at h
    simp only [Except.ok.injEq, Prod.mk.injEq] at h
    obtain ⟨-, rfl⟩ := h
    intro p hp
    rcases List.mem_append.mp hp with h1 | h1
    · exact hbase p h1
    · exact hdom p h1
  | some ev =>
    rw [hl] at h
    dsimp only at h
    cases hdp : s.diff_power with
    | none =>
      rw [hdp] at h
      simp only [except_bind_ok, Except.ok.injEq, Prod.mk.injEq] at h
      obtain ⟨-, rfl⟩ := h
      intro p hp
      rcases List.mem_append.mp hp with h1 | h1
      · rcases List.mem_append.mp h1 with h2 | h2
        · rcases List.mem_append.mp h2 with h3 | h3
          · exact hbase p h3
          · exact henergy ev p h3
        · cases h2
      · exact hdom p h1
    | some mv =>
      rw [hdp] at h
      dsimp only at h
      cases hpv : parse_i64 mv with
      | none => rw [hpv] at h; simp [unwrapO] at h
      | some v =>
        rw [hpv] at h
        simp only [unwrapO, except_bind_ok, Except.ok.injEq, Prod.mk.injEq] at h
        obtain ⟨-, rfl⟩ := h
        intro p hp
        rcases List.mem_append.mp hp with h1 | h1
        · rcases List.mem_append.mp h1 with h2 | h2
          · rcases List.mem_append.mp h2 with h3 | h3
            · exact hbase p h3
            · exact henergy ev p h3
          · simp only [List.mem_singleton] at h2
            subst h2
            simp [nonHostNames]
        · exact hdom p h1

/-- Lifting a pointwise name bound through `collectBlocks`. -/
theorem collectBlocks_names {β : Type}
    (f : β → Except ExpError (List AccessorCall × List WPoint))
    (hnames : ∀ x tr pts, f x = .ok (tr, pts) → ∀ p ∈ pts, p.name ∈ nonHostNames) :
    ∀ (l : List β) (tr : List AccessorCall) (pts : List WPoint),
      collectBlocks f l = .ok (tr, pts) → ∀ p ∈ pts, p.name ∈ nonHostNames := by
  intro l
  induction l with
  | nil =>
    intro tr pts h
    simp only [collectBlocks, Except.ok.injEq, Prod.mk.injEq] at h
    obtain ⟨-, rfl⟩ := h
    simp
  | cons x xs ih =>
    intro tr pts h
    simp only [collectBlocks] at h
    cases hx : f x with
    | error e => rw [hx] at h; simp at h
    | ok q =>
      obtain ⟨t1, d1⟩ := q
      rw [hx] at h
      simp only [except_bind_ok] at h
      cases hxs : collectBlocks f xs with
      | error e => rw [hxs] at h; simp at h
      | ok q2 =>
        obtain ⟨t2, d2⟩ := q2
        rw [hxs] at h
        simp only [except_bind_ok, Except.ok.injEq, Prod.mk.injEq] at h
        obtain ⟨-, rfl⟩ := h
        intro p hp
        rcases List.mem_append.mp hp with h1 | h1
        · exact hnames x t1 d1 hx p h1
        · exact ih t2 d2 hxs p h1

/-- No name the main batch can carry besides the host section's own points
is one of the two host metric names. -/
theorem nonHostNames_ne_host :
    ∀ s ∈ nonHostNames, s ≠ "scaph_host_energy_microjoules" ∧
      s ≠ "scaph_host_power_microwatts" := by decide

/-- Claim C5: cold start is "no value", never an error: with fewer than two raw
samples the accessor answers `none`; with an empty host record buffer the
host section of the tick body produces no point and no failure; with the
accessor answering `none` no `scaph_host_power_microwatts` point is
produced; and an entire successful tick over an empty host record buffer
carries neither `scaph_host_energy_microjoules` nor
`scaph_host_power_microwatts`. -/
theorem cold_start_no_host_points (t : TopologyEntity) (env : ExporterEnv) :
    (t.raw.length < 2 → t.get_records_diff_power_microwatts = none) ∧
    (env.host_records = [] → hostBlock env = .ok ([], [])) ∧
    (env.host_diff_power = none → ∀ tr pts, hostBlock env = .ok (tr, pts) →
      ∀ p ∈ pts, p.name ≠ "scaph_host_power_microwatts") ∧
    (env.host_records = [] → ∀ r, iterate env = .ok r → ∀ p ∈ r.data,
      p.name ≠ "scaph_host_energy_microjoules" ∧
      p.name ≠ "scaph_host_power_microwatts") := by
  have hcold : env.host_records = [] → hostBlock env = .ok ([], []) := by
    intro h
    unfold hostBlock
    rw [h]
    rfl
  refine ⟨?_, hcold, ?_, ?_⟩
  · intro h
    simp [TopologyEntity.get_records_diff_power_microwatts, h]
  · intro hdp tr pts h
    unfold hostBlock at h
    cases hl : env.host_records.getLast? with
    | none =>
      rw [hl] at h
      simp only [Except.ok.injEq, Prod.mk.injEq] at h
      obtain ⟨-, rfl⟩ := h
      intro p hp
      cases hp
    | some rv =>
      rw [hl] at h
      dsimp only at h
      cases hpv : parse_i64 rv with
      | none => rw [hpv] at h; simp [unwrapO] at h
      | some v =>
        rw [hpv] at h
        simp only [unwrapO, except_bind_ok] at h
        rw [hdp] at h
        dsimp only at h
        simp only [Except.ok.injEq, Prod.mk.injEq] at h
        obtain ⟨-, rfl⟩ := h
        intro p hp
        simp only [List.mem_singleton] at hp
        subst hp
        show "scaph_host_energy_microjoules" ≠ "scaph_host_power_microwatts"
        decide
  · intro hhr r hok
    unfold iterate at hok
    cases hv : env.version_f64_ok with
    | false => rw [hv] at hok; simp at hok
    | true =>
      rw [hv] at hok
      simp only [if_true, except_pure_bind, except_bind_ok] at hok
      cases hc1 : selfCpuBlock env with
      | error e => rw [hc1] at hok; simp at hok
      | ok q1 =>
        obtain ⟨tc1, dc1⟩ := q1
        rw [hc1] at hok
        simp only [except_bind_ok] at hok
        cases hmem : memBlock env with
        | error e => rw [hmem] at hok; simp at hok
        | ok dmem =>
          rw [hmem] at hok
          simp only [except_bind_ok] at hok
          cases hs : collectBlocks socketBlock env.sockets with
          | error e => rw [hs] at hok; simp at hok
          | ok qs =>
            obtain ⟨ts, ds⟩ := qs
            rw [hs] at hok
            simp only [except_bind_ok] at hok
            rw [hcold hhr] at hok
            simp only [except_bind_ok] at hok
            cases hp1 : env.post1 with
            | error e => rw [hp1] at hok; simp [unwrapPost] at hok
            | ok r1 =>
              rw [hp1] at hok
              simp only [unwrapPost, except_bind_ok] at hok
              cases hpr : collectBlocks (processBlock env) env.alive with
              | error e => rw [hpr] at hok; simp at hok
              | ok qp =>
                obtain ⟨tp, dp⟩ := qp
                rw [hpr] at hok
                simp only [except_bind_ok] at hok
                cases hp2 : env.post2 with
                | error e => rw [hp2] at hok; simp [unwrapPost] at hok
                | ok r2 =>
                  rw [hp2] at hok
                  simp only [unwrapPost, except_bind_ok, Except.ok.injEq] at hok
                  subst hok
                  intro p hp
                  simp only [List.append_nil, List.mem_append,
                    List.mem_cons, List.not_mem_nil, or_false] at hp
                  have hname : p.name ∈ nonHostNames := by
                    rcases hp with ((((rfl | h1) | h1) | h1) | h1) | h1
                    · simp [nonHostNames]
                    · exact selfCpuBlock_names env tc1 dc1 hc1 p h1
                    · exact selfCpuBlock_names env tc1 dc1 hc1 p h1
                    · exact memBlock_names env dmem hmem p h1
                    · exact countersBlock_names env p h1
                    · exact collectBlocks_names socketBlock
                        socketBlock_names env.sockets ts ds hs p h1
                  exact nonHostNames_ne_host p.name hname

/-- Witness for `C5`: the cold-start accessor and the host section at a
concrete empty-buffer environment. -/
theorem cold_start_no_host_points_witness :
    (⟨[], []⟩ : TopologyEntity).get_records_diff_power_microwatts = none ∧
    hostBlock exampleEnv = .ok ([], []) :=
  ⟨(cold_start_no_host_points ⟨[], []⟩ exampleEnv).1 (by decide),
    (cold_start_no_host_points ⟨[], []⟩ exampleEnv).2.1 rfl⟩

end Scaph
